import Mathlib

/-!
Verification of the `syncme` thread-pool manager
(`lib/source/ThreadPool/Pool.cpp`) against its natural-language
specification.

The embedding below is a direct, sequential shallow embedding of the
pool state machine.  Workers are identified by natural numbers (the
identity of the C++ `WorkerPtr`); the two collections `All` and
`Unused` are lists of worker ids.  External collaborator behaviour
(whether a given worker currently reports `IsExpired`, whether
`Worker::Start` and `Worker::Invoke` succeed, which signal a
`WaitForMultipleObjects` call reports) is supplied by explicit oracle
parameters, mirroring the narrow interfaces the pool consumes.
Process-wide diagnostic counters are modelled as fields of the pool
state.  Durations are `Int` (the C++ `long`), and the C++ expression
`4 * MaxIdleTime / 3` is modelled with `Int.tdiv`, which truncates
toward zero exactly as C++ integer division does.
-/

namespace SyncmePool

/-- Overflow policy `OVERFLOW_MODE` from the pool header: behaviour of `Run` when the
pool is at capacity and no idle worker exists. -/
inductive OVERFLOW_MODE where
  | WAIT : OVERFLOW_MODE
  | FAIL : OVERFLOW_MODE
deriving DecidableEq, Repr

/-- The pool state: configuration, the two worker collections, the
stopping flag, the shared waitable timer, the two events and the
diagnostic counters.  Defaults mirror the `Pool::Pool()` constructor
(`MAX_UNUSED_THREADS = 12`, `MAX_THREADS = 100`, `MAX_IDLE_TIME =
3000`, mode `WAIT`, not stopping, empty collections, zero counters).
`timerArmed = some d` means the shared timer is armed with duration
`d`; `none` means cancelled. -/
structure PoolState where
  maxUnusedThreads : Nat := 12
  maxThreads : Nat := 100
  maxIdleTime : Int := 3000
  mode : OVERFLOW_MODE := .WAIT
  stopping : Bool := false
  all : List Nat := []
  unused : List Nat := []
  timerArmed : Option Int := none
  freeEvent : Bool := false
  stopEvent : Bool := false
  threadsTotal : Nat := 0
  threadsUnused : Nat := 0
  threadsStopped : Nat := 0
  onTimerCalls : Nat := 0
  errors : Nat := 0
deriving DecidableEq, Repr

/-- The `SET_TIMER()` define:
`SetWaitableTimer(Timer, 4 * MaxIdleTime / 3, 0, nullptr)`.
C++ integer division truncates toward zero, hence `Int.tdiv`. -/
def SET_TIMER (s : PoolState) : PoolState :=
  { s with timerArmed := some (Int.tdiv (4 * s.maxIdleTime) 3) }

/-- Model of `CancelWaitableTimer(Timer)`. -/
def cancelTimer (s : PoolState) : PoolState :=
  { s with timerArmed := none }

/-- The predicate deciding whether the eviction scan in
`Locked_StopExpired` stops at element `e`: `e` is expired and is not
the excluded caller.  (Non-expired entries and the expired caller are
skipped with `continue`.) -/
def expStop (caller : Option Nat) (isExp : Nat → Bool) (e : Nat) : Bool :=
  isExp e && !(decide (caller = some e))

/-- One inner `for` pass of `Locked_StopExpired` over `Unused`: skip
non-expired entries; on an expired entry equal to `caller`, set the
`setTimer` flag and continue; stop at the first expired non-caller
entry.  Returns (flag contribution of this pass, the entry found). -/
def scanPass (caller : Option Nat) (isExp : Nat → Bool) :
    List Nat → Bool × Option Nat
  | [] => (false, none)
  | e :: rest =>
    if isExp e then
      if caller = some e then
        (true, (scanPass caller isExp rest).2)
      else
        (false, some e)
    else
      scanPass caller isExp rest

/-- Result of the eviction sweep: the pool state, the ids of the
workers that were stopped (in order), and the final `setTimer` flag. -/
structure SweepState where
  pool : PoolState
  stopped : List Nat
  setTimer : Bool
deriving DecidableEq, Repr

/-- The outer `for (bool cont = true; cont;)` loop of
`Locked_StopExpired`.  Each iteration rescans `Unused` from the front;
when an expired non-caller worker `e` is found it is stopped
(`ThreadsStopped++`), erased from `Unused` (at the position the scan
stopped at) and from `All` (first occurrence), the size diagnostics
are refreshed, and the scan restarts.  The fuel argument bounds the
number of iterations; `Unused.length + 1` iterations always reach the
fixpoint because every removal shrinks `Unused` by one. -/
def stopExpiredLoop (caller : Option Nat) (isExp : Nat → Bool) :
    Nat → PoolState → Bool → List Nat → SweepState
  | 0, s, st, acc => ⟨s, acc, st⟩
  | fuel + 1, s, st, acc =>
    let r := scanPass caller isExp s.unused
    let st1 := st || r.1
    match r.2 with
    | none => ⟨s, acc, st1⟩
    | some e =>
      let s1 : PoolState :=
        { s with
          threadsStopped := s.threadsStopped + 1
          unused := s.unused.eraseP (expStop caller isExp)
          all := s.all.erase e }
      let s2 : PoolState :=
        { s1 with
          threadsUnused := s1.unused.length
          threadsTotal := s1.all.length }
      stopExpiredLoop caller isExp fuel s2 st1 (acc ++ [e])

/-- Model of `Pool::Locked_StopExpired(Worker* caller)`: cancel the shared
timer, return immediately when stopping, otherwise run the scan loop
and re-arm the shared timer if an expired caller was encountered.
`isExp` is the oracle for `Worker::IsExpired`. -/
def Locked_StopExpired (caller : Option Nat) (isExp : Nat → Bool)
    (s : PoolState) : SweepState :=
  let s0 := cancelTimer s
  if s0.stopping then ⟨s0, [], false⟩
  else
    let r := stopExpiredLoop caller isExp (s0.unused.length + 1) s0 false []
    if r.setTimer then ⟨SET_TIMER r.pool, r.stopped, true⟩
    else ⟨r.pool, r.stopped, false⟩

/-- Model of `Pool::SetStopping()`: set the stopping flag and raise the sticky
stop event. -/
def SetStopping (s : PoolState) : PoolState :=
  { s with stopping := true, stopEvent := true }

/-- Result of `Pool::Stop()`: the final state, the ids of the stopped
workers, and the value of the `assert(All.size() == Unused.size())`
check evaluated just before the collections are cleared. -/
structure StopOut where
  state : PoolState
  stoppedIds : List Nat
  assertOk : Bool
deriving DecidableEq, Repr

/-- Model of `Pool::Stop()`: set stopping, force-stop every worker in `All`
(incrementing `ThreadsStopped` once per worker), assert
`All.size() == Unused.size()`, then clear both collections and zero
the total and unused counters. -/
def Stop (s : PoolState) : StopOut :=
  let s1 := SetStopping s
  let s2 := { s1 with threadsStopped := s1.threadsStopped + s1.all.length }
  let ok := s2.all.length == s2.unused.length
  let s3 := { s2 with unused := [], threadsUnused := 0, all := [], threadsTotal := 0 }
  ⟨s3, s2.all, ok⟩

/-- Model of `Pool::StopUnused()`: set every idle worker expiry deadline to 0
(so each reports expired) and run the sweep with no excluded caller. -/
def StopUnused (isExp : Nat → Bool) (s : PoolState) : SweepState :=
  Locked_StopExpired none (fun e => s.unused.contains e || isExp e) s

/-- Model of `Pool::PopUnused(size_t& allCount)`: record `All.size()`, pop the
front of `Unused` if non-empty (refreshing `ThreadsUnused`, cancelling
the popped worker expiry timer) and opportunistically run the sweep.
Returns (state, popped worker, recorded allCount). -/
def PopUnused (isExp : Nat → Bool) (s : PoolState) :
    PoolState × Option Nat × Nat :=
  let allCount := s.all.length
  match s.unused with
  | [] => (s, none, allCount)
  | t :: rest =>
    let s1 := { s with unused := rest, threadsUnused := rest.length }
    let r := Locked_StopExpired none isExp s1
    (r.pool, some t, allCount)

/-- Selector for the by-reference `list` argument of `Pool::Push`. -/
inductive WhichList where
  | toAll : WhichList
  | toUnused : WhichList
deriving DecidableEq, Repr

/-- Model of `Pool::Push(WorkerList& list, WorkerPtr t)`: append `t` to the
chosen collection and refresh both size diagnostics. -/
def Push (which : WhichList) (t : Nat) (s : PoolState) : PoolState :=
  let s1 :=
    match which with
    | .toAll => { s with all := s.all ++ [t] }
    | .toUnused => { s with unused := s.unused ++ [t] }
  { s1 with threadsUnused := s1.unused.length, threadsTotal := s1.all.length }

/-- Observable side effects of `Pool::CB_OnFree` on the worker and the
events: the argument passed to `p->SetExpireTimer` (if called), the
duration the shared timer was armed with (if `SET_TIMER()` ran), and
how many times `SetEvent(FreeEvent)` was called. -/
structure OnFreeEffects where
  expireSet : Option Int
  timerArm : Option Int
  freeRaised : Nat
deriving DecidableEq, Repr

/-- Model of `Pool::CB_OnFree(Worker* p)`: under the lock, if
`Unused.size() + 1 > MaxUnusedThreads` then arm the worker expiry
deadline with `MaxIdleTime` and run `SET_TIMER()`; push `p` onto the
back of `Unused` and raise the free event.  Note: the source does not
refresh `ThreadsUnused` here. -/
def CB_OnFree (p : Nat) (s : PoolState) : PoolState × OnFreeEffects :=
  if s.unused.length + 1 > s.maxUnusedThreads then
    let arm := Int.tdiv (4 * s.maxIdleTime) 3
    ({ s with timerArmed := some arm, unused := s.unused ++ [p], freeEvent := true },
     ⟨some s.maxIdleTime, some arm, 1⟩)
  else
    ({ s with unused := s.unused ++ [p], freeEvent := true },
     ⟨none, none, 1⟩)

/-- Model of `Pool::CB_OnTimer(Worker* p)`: increment the tick counter
unconditionally; if `Lock.try_lock()` succeeds (oracle `tryLockOk`),
run the sweep excluding `p`, else skip the tick. -/
def CB_OnTimer (p : Nat) (tryLockOk : Bool) (isExp : Nat → Bool)
    (s : PoolState) : SweepState :=
  let s1 := { s with onTimerCalls := s.onTimerCalls + 1 }
  if tryLockOk then Locked_StopExpired (some p) isExp s1
  else ⟨s1, [], false⟩

/-- Which of the two waited-on events `WaitForMultipleObjects(ev, false)`
reports: `object0` is `StopEvent`, `object1` is `FreeEvent`. -/
inductive WaitResult where
  | object0 : WaitResult
  | object1 : WaitResult
deriving DecidableEq, Repr

/-- Oracles for the external collaborator calls made by `Pool::Run`:
whether `Worker::Start` succeeds for the newly created worker, whether
`Worker::Invoke` succeeds for a given worker, the outcome of the k-th
`WaitForMultipleObjects` call, and the identity of a newly allocated
worker. -/
structure RunEnv where
  startOk : Bool
  invokeOk : Nat → Bool
  waitOutcome : Nat → WaitResult
  freshId : Nat

/-- Outcome of the `while (!Stopping)` admission loop in `Pool::Run`. -/
inductive RunOutcome where
  | refuseFail : RunOutcome
  | refuseStop : RunOutcome
  | refuseStartFail : RunOutcome
  | gotWorker : Nat → RunOutcome
  | exitNoWorker : RunOutcome
  | fuelOut : RunOutcome
deriving DecidableEq, Repr

/-- The admission loop of `Pool::Run`, one constructor per exit path:
pop an idle worker; at capacity either fail (`FAIL` mode, `Errors++`)
or wait on {StopEvent, FreeEvent} and retry on the free signal;
otherwise create and start a new worker and register it in `All`.
`exitNoWorker` is the exit through the loop condition with the local
`WorkerPtr t` still null.  `k` counts the wait calls made so far. -/
def RunLoop (env : RunEnv) (isExp : Nat → Bool) :
    Nat → Nat → PoolState → PoolState × RunOutcome
  | 0, _, s => (s, .fuelOut)
  | fuel + 1, k, s =>
    if s.stopping then (s, .exitNoWorker)
    else
      let pr := PopUnused isExp s
      match pr.2.1 with
      | some t => (pr.1, .gotWorker t)
      | none =>
        if pr.2.2 ≥ s.maxThreads then
          if s.mode = OVERFLOW_MODE.FAIL then
            ({ pr.1 with errors := pr.1.errors + 1 }, .refuseFail)
          else
            match env.waitOutcome k with
            | .object0 => (pr.1, .refuseStop)
            | .object1 => RunLoop env isExp fuel (k + 1) pr.1
        else
          if env.startOk then
            (Push .toAll env.freshId pr.1, .gotWorker env.freshId)
          else
            ({ pr.1 with errors := pr.1.errors + 1 }, .refuseStartFail)

/-- Result of `Pool::Run` as seen by the caller.  `handle t` is a
non-null completion event obtained from worker `t`; `refusal` is a
`nullptr` return; `nullDeref` marks the path where the loop exits with
the local `WorkerPtr t` still null and the source then executes
`t->Invoke(cb, id)` on it: undefined behaviour (a null-pointer
dereference), not a return. -/
inductive RunResult where
  | handle : Nat → RunResult
  | refusal : RunResult
  | nullDeref : RunResult
  | fuelOut : RunResult
deriving DecidableEq, Repr

/-- Model of `Pool::Run(TCallback cb, uint64_t* pid)`: run the admission loop;
on a worker, call `Invoke` — on success return its completion handle,
on failure push the worker back onto `Unused`, increment `Errors` and
return `nullptr`. -/
def Run (env : RunEnv) (isExp : Nat → Bool) (fuel : Nat) (s : PoolState) :
    PoolState × RunResult :=
  let r := RunLoop env isExp fuel 0 s
  match r.2 with
  | .refuseFail => (r.1, .refusal)
  | .refuseStop => (r.1, .refusal)
  | .refuseStartFail => (r.1, .refusal)
  | .fuelOut => (r.1, .fuelOut)
  | .exitNoWorker => (r.1, .nullDeref)
  | .gotWorker t =>
    if env.invokeOk t then (r.1, .handle t)
    else
      let s1 := Push .toUnused t r.1
      ({ s1 with errors := s1.errors + 1 }, .refusal)

/-- The collection invariant: every idle worker is live
(`Unused ⊆ All`) and no worker appears twice in either collection. -/
def Inv (s : PoolState) : Prop :=
  s.unused ⊆ s.all ∧ s.all.Nodup ∧ s.unused.Nodup

instance (s : PoolState) : Decidable (Inv s) := by
  unfold Inv; infer_instance

/-- Configuration, event and error fields untouched by the sweep loop. -/
def CfgEq (s s' : PoolState) : Prop :=
  s'.maxUnusedThreads = s.maxUnusedThreads ∧
  s'.maxThreads = s.maxThreads ∧
  s'.maxIdleTime = s.maxIdleTime ∧
  s'.mode = s.mode ∧
  s'.stopping = s.stopping ∧
  s'.freeEvent = s.freeEvent ∧
  s'.stopEvent = s.stopEvent ∧
  s'.onTimerCalls = s.onTimerCalls ∧
  s'.errors = s.errors

theorem CfgEq.refl (s : PoolState) : CfgEq s s :=
  ⟨rfl, rfl, rfl, rfl, rfl, rfl, rfl, rfl, rfl⟩

theorem CfgEq.trans {s₁ s₂ s₃ : PoolState} (h₁ : CfgEq s₁ s₂) (h₂ : CfgEq s₂ s₃) :
    CfgEq s₁ s₃ := by
  obtain ⟨a1, a2, a3, a4, a5, a6, a7, a8, a9⟩ := h₁
  obtain ⟨b1, b2, b3, b4, b5, b6, b7, b8, b9⟩ := h₂
  exact ⟨b1.trans a1, b2.trans a2, b3.trans a3, b4.trans a4, b5.trans a5,
         b6.trans a6, b7.trans a7, b8.trans a8, b9.trans a9⟩

/-- Decomposition of a successful scan pass: the list splits at the
found element, everything before it is skipped by the scan predicate,
and `eraseP` removes exactly the found occurrence. -/
theorem scanPass_some {c : Option Nat} {x : Nat → Bool} {l : List Nat} {e : Nat}
    (h : (scanPass c x l).2 = some e) :
    ∃ l₁ l₂, l = l₁ ++ e :: l₂ ∧
      (∀ a ∈ l₁, expStop c x a = false) ∧
      expStop c x e = true ∧
      l.eraseP (expStop c x) = l₁ ++ l₂ := by
  induction l with
  | nil => simp [scanPass] at h
  | cons a rest ih =>
    by_cases hx : x a
    · by_cases hc : c = some a
      · rw [scanPass, if_pos hx, if_pos hc] at h
        obtain ⟨l₁, l₂, hsplit, hskip, he, her⟩ := ih h
        refine ⟨a :: l₁, l₂, by simp [hsplit], ?_, he, ?_⟩
        · intro b hb
          rcases List.mem_cons.mp hb with rfl | hb
          · simp [expStop, hx, hc]
          · exact hskip b hb
        · rw [List.eraseP_cons_of_neg (by simp [expStop, hx, hc]), her]; simp
      · rw [scanPass, if_pos hx, if_neg hc] at h
        simp only [Option.some.injEq] at h
        subst h
        refine ⟨[], rest, by simp, by simp, by simp [expStop, hx, hc], ?_⟩
        rw [List.eraseP_cons_of_pos (by simp [expStop, hx, hc])]; simp
    · rw [scanPass, if_neg hx] at h
      obtain ⟨l₁, l₂, hsplit, hskip, he, her⟩ := ih h
      refine ⟨a :: l₁, l₂, by simp [hsplit], ?_, he, ?_⟩
      · intro b hb
        rcases List.mem_cons.mp hb with rfl | hb
        · simp [expStop, hx]
        · exact hskip b hb
      · rw [List.eraseP_cons_of_neg (by simp [expStop, hx]), her]; simp

/-- A scan pass that finds nothing saw no removable entry. -/
theorem scanPass_none {c : Option Nat} {x : Nat → Bool} {l : List Nat}
    (h : (scanPass c x l).2 = none) :
    ∀ a ∈ l, expStop c x a = false := by
  induction l with
  | nil => simp
  | cons a rest ih =>
    intro b hb
    by_cases hx : x a
    · by_cases hc : c = some a
      · rw [scanPass, if_pos hx, if_pos hc] at h
        rcases List.mem_cons.mp hb with rfl | hb
        · simp [expStop, hx, hc]
        · exact ih h b hb
      · rw [scanPass, if_pos hx, if_neg hc] at h
        simp at h
    · rw [scanPass, if_neg hx] at h
      rcases List.mem_cons.mp hb with rfl | hb
      · simp [expStop, hx]
      · exact ih h b hb

/-- A full scan pass (one that found nothing to remove) raises the
`setTimer` flag when the expired excluded caller sits in the list. -/
theorem scanPass_flag {cc : Nat} {x : Nat → Bool} {l : List Nat}
    (hmem : cc ∈ l) (hexp : x cc = true)
    (h : (scanPass (some cc) x l).2 = none) :
    (scanPass (some cc) x l).1 = true := by
  induction l with
  | nil => simp at hmem
  | cons a rest ih =>
    by_cases hx : x a
    · by_cases hc : (some cc : Option Nat) = some a
      · rw [scanPass, if_pos hx, if_pos hc]
      · rw [scanPass, if_pos hx, if_neg hc] at h ⊢
        simp at h
    · rw [scanPass, if_neg hx] at h ⊢
      rcases List.mem_cons.mp hmem with rfl | hb
      · rw [hexp] at hx; simp at hx
      · exact ih hb h

/-- The sweep loop does not touch configuration, events or errors. -/
theorem stopExpiredLoop_cfg (c : Option Nat) (x : Nat → Bool) :
    ∀ (fuel : Nat) (s : PoolState) (st : Bool) (acc : List Nat),
      CfgEq s (stopExpiredLoop c x fuel s st acc).pool := by
  intro fuel
  induction fuel with
  | zero => intro s st acc; exact CfgEq.refl s
  | succ f ih =>
    intro s st acc
    rw [stopExpiredLoop]
    cases hr : (scanPass c x s.unused).2 with
    | none => simp only [hr]; exact CfgEq.refl s
    | some e =>
      simp only [hr]
      exact CfgEq.trans (by exact ⟨rfl, rfl, rfl, rfl, rfl, rfl, rfl, rfl, rfl⟩)
        (ih _ _ _)

/-- The sweep loop only ever removes entries: both collections of the
result are sublists of the originals. -/
theorem stopExpiredLoop_sublist (c : Option Nat) (x : Nat → Bool) :
    ∀ (fuel : Nat) (s : PoolState) (st : Bool) (acc : List Nat),
      List.Sublist (stopExpiredLoop c x fuel s st acc).pool.unused s.unused ∧
      List.Sublist (stopExpiredLoop c x fuel s st acc).pool.all s.all := by
  intro fuel
  induction fuel with
  | zero => intro s st acc; exact ⟨List.Sublist.refl _, List.Sublist.refl _⟩
  | succ f ih =>
    intro s st acc
    rw [stopExpiredLoop]
    cases hr : (scanPass c x s.unused).2 with
    | none => simp only [hr]; exact ⟨List.Sublist.refl _, List.Sublist.refl _⟩
    | some e =>
      simp only [hr]
      obtain ⟨h1, h2⟩ := ih
        { maxUnusedThreads := s.maxUnusedThreads, maxThreads := s.maxThreads,
          maxIdleTime := s.maxIdleTime, mode := s.mode, stopping := s.stopping,
          all := s.all.erase e, unused := s.unused.eraseP (expStop c x),
          timerArmed := s.timerArmed, freeEvent := s.freeEvent,
          stopEvent := s.stopEvent, threadsTotal := (s.all.erase e).length,
          threadsUnused := (s.unused.eraseP (expStop c x)).length,
          threadsStopped := s.threadsStopped + 1,
          onTimerCalls := s.onTimerCalls, errors := s.errors }
        (st || (scanPass c x s.unused).1) (acc ++ [e])
      exact ⟨h1.trans (List.eraseP_sublist _), h2.trans (List.erase_sublist _ _)⟩

/-- A busy worker (in `All`, not in `Unused`) survives the sweep loop
untouched. -/
theorem stopExpiredLoop_busy (c : Option Nat) (x : Nat → Bool) (w : Nat) :
    ∀ (fuel : Nat) (s : PoolState) (st : Bool) (acc : List Nat),
      w ∈ s.all → w ∉ s.unused →
      w ∈ (stopExpiredLoop c x fuel s st acc).pool.all ∧
      w ∉ (stopExpiredLoop c x fuel s st acc).pool.unused := by
  intro fuel
  induction fuel with
  | zero => intro s st acc h1 h2; exact ⟨h1, h2⟩
  | succ f ih =>
    intro s st acc h1 h2
    rw [stopExpiredLoop]
    cases hr : (scanPass c x s.unused).2 with
    | none => simp only [hr]; exact ⟨h1, h2⟩
    | some e =>
      simp only [hr]
      obtain ⟨l₁, l₂, hsplit, _, _, her⟩ := scanPass_some hr
      have hemem : e ∈ s.unused := by rw [hsplit]; simp
      have hne : w ≠ e := fun hwe => h2 (hwe ▸ hemem)
      exact ih _ _ _
        (show w ∈ s.all.erase e from (List.mem_erase_of_ne hne).mpr h1)
        (show w ∉ s.unused.eraseP (expStop c x) from
          fun hw => h2 ((List.eraseP_sublist s.unused).subset hw))

/-- The excluded caller is never stopped by the sweep loop and keeps
its membership in both collections. -/
theorem stopExpiredLoop_caller (cc : Nat) (x : Nat → Bool) :
    ∀ (fuel : Nat) (s : PoolState) (st : Bool) (acc : List Nat),
      (cc ∉ acc → cc ∉ (stopExpiredLoop (some cc) x fuel s st acc).stopped) ∧
      (cc ∈ (stopExpiredLoop (some cc) x fuel s st acc).pool.unused ↔ cc ∈ s.unused) ∧
      (cc ∈ (stopExpiredLoop (some cc) x fuel s st acc).pool.all ↔ cc ∈ s.all) := by
  intro fuel
  induction fuel with
  | zero => intro s st acc; exact ⟨fun h => h, Iff.rfl, Iff.rfl⟩
  | succ f ih =>
    intro s st acc
    rw [stopExpiredLoop]
    cases hr : (scanPass (some cc) x s.unused).2 with
    | none => simp [hr]
    | some e =>
      simp only [hr]
      obtain ⟨l₁, l₂, hsplit, _, he, her⟩ := scanPass_some hr
      have hne : cc ≠ e := by
        intro hcc
        subst hcc
        simp [expStop] at he
      obtain ⟨ha, hb, hc⟩ := ih
        { maxUnusedThreads := s.maxUnusedThreads, maxThreads := s.maxThreads,
          maxIdleTime := s.maxIdleTime, mode := s.mode, stopping := s.stopping,
          all := s.all.erase e, unused := s.unused.eraseP (expStop (some cc) x),
          timerArmed := s.timerArmed, freeEvent := s.freeEvent,
          stopEvent := s.stopEvent, threadsTotal := (s.all.erase e).length,
          threadsUnused := (s.unused.eraseP (expStop (some cc) x)).length,
          threadsStopped := s.threadsStopped + 1,
          onTimerCalls := s.onTimerCalls, errors := s.errors }
        (st || (scanPass (some cc) x s.unused).1) (acc ++ [e])
      refine ⟨?_, ?_, ?_⟩
      · intro hacc
        exact ha (by simp [hacc, hne])
      · rw [hb]
        exact List.mem_eraseP_of_neg (by simp [expStop])
      · rw [hc]
        exact List.mem_erase_of_ne hne

/-- One removal step preserves the collection invariant. -/
theorem inv_step {c : Option Nat} {x : Nat → Bool} {s : PoolState} {e : Nat}
    (hInv : Inv s) (hr : (scanPass c x s.unused).2 = some e) :
    (s.unused.eraseP (expStop c x)) ⊆ s.all.erase e ∧
    (s.all.erase e).Nodup ∧ (s.unused.eraseP (expStop c x)).Nodup := by
  obtain ⟨hsub, hndAll, hndUn⟩ := hInv
  obtain ⟨l₁, l₂, hsplit, hskip, he, her⟩ := scanPass_some hr
  have hel₁ : e ∉ l₁ := fun hmem => by rw [hskip e hmem] at he; exact Bool.false_ne_true he
  have hel₂ : e ∉ l₂ := by
    have : (e :: l₂).Nodup := (hsplit ▸ hndUn).of_append_right
    exact (List.nodup_cons.mp this).1
  refine ⟨?_, ?_, ?_⟩
  · intro a ha
    rw [her] at ha
    have hane : a ≠ e := by
      rintro rfl
      rcases List.mem_append.mp ha with h | h
      · exact hel₁ h
      · exact hel₂ h
    have hau : a ∈ s.unused := by
      rw [hsplit]
      rcases List.mem_append.mp ha with h | h
      · exact List.mem_append.mpr (Or.inl h)
      · exact List.mem_append.mpr (Or.inr (List.mem_cons_of_mem _ h))
    exact (List.mem_erase_of_ne hane).mpr (hsub hau)
  · exact (List.erase_sublist _ _).nodup hndAll
  · exact (List.eraseP_sublist _).nodup hndUn

/-- The sweep loop preserves the collection invariant. -/
theorem stopExpiredLoop_inv (c : Option Nat) (x : Nat → Bool) :
    ∀ (fuel : Nat) (s : PoolState) (st : Bool) (acc : List Nat),
      Inv s → Inv (stopExpiredLoop c x fuel s st acc).pool := by
  intro fuel
  induction fuel with
  | zero => intro s st acc h; exact h
  | succ f ih =>
    intro s st acc hInv
    rw [stopExpiredLoop]
    cases hr : (scanPass c x s.unused).2 with
    | none => simp only [hr]; exact hInv
    | some e =>
      simp only [hr]
      obtain ⟨h1, h2, h3⟩ := inv_step hInv hr
      exact ih _ _ _ ⟨h1, h2, h3⟩

/-- When fuel exceeds the length of `Unused`, the sweep loop reaches
its fixpoint, and the final full pass raises `setTimer` whenever the
excluded caller is idle and expired. -/
theorem stopExpiredLoop_setTimer (cc : Nat) (x : Nat → Bool) :
    ∀ (fuel : Nat) (s : PoolState) (st : Bool) (acc : List Nat),
      s.unused.length < fuel → cc ∈ s.unused → x cc = true →
      (stopExpiredLoop (some cc) x fuel s st acc).setTimer = true := by
  intro fuel
  induction fuel with
  | zero => intro s st acc h; omega
  | succ f ih =>
    intro s st acc hfuel hmem hexp
    rw [stopExpiredLoop]
    cases hr : (scanPass (some cc) x s.unused).2 with
    | none =>
      simp only [hr]
      rw [scanPass_flag hmem hexp hr]
      simp
    | some e =>
      simp only [hr]
      obtain ⟨l₁, l₂, hsplit, _, he, her⟩ := scanPass_some hr
      have hne : cc ≠ e := by
        rintro rfl
        simp [expStop] at he
      refine ih _ _ _ ?_ ?_ hexp
      · show (s.unused.eraseP (expStop (some cc) x)).length < f
        rw [her]
        rw [hsplit] at hfuel
        simp only [List.length_append, List.length_cons] at hfuel ⊢
        omega
      · show cc ∈ s.unused.eraseP (expStop (some cc) x)
        exact (List.mem_eraseP_of_neg (by simp [expStop])).mpr hmem

/-- Unfolding of `Locked_StopExpired` as a plain conditional. -/
theorem Locked_StopExpired_eq (c : Option Nat) (x : Nat → Bool) (s : PoolState) :
    Locked_StopExpired c x s =
      if s.stopping = true then ⟨cancelTimer s, [], false⟩
      else
        if (stopExpiredLoop c x (s.unused.length + 1) (cancelTimer s) false []).setTimer = true
        then ⟨SET_TIMER (stopExpiredLoop c x (s.unused.length + 1) (cancelTimer s) false []).pool,
              (stopExpiredLoop c x (s.unused.length + 1) (cancelTimer s) false []).stopped, true⟩
        else ⟨(stopExpiredLoop c x (s.unused.length + 1) (cancelTimer s) false []).pool,
              (stopExpiredLoop c x (s.unused.length + 1) (cancelTimer s) false []).stopped, false⟩ := rfl

/-- The sweep does not touch configuration, events or errors. -/
theorem sweep_cfg (c : Option Nat) (x : Nat → Bool) (s : PoolState) :
    CfgEq s (Locked_StopExpired c x s).pool := by
  rw [Locked_StopExpired_eq]
  by_cases hst : s.stopping = true
  · rw [if_pos hst]
    exact ⟨rfl, rfl, rfl, rfl, rfl, rfl, rfl, rfl, rfl⟩
  · rw [if_neg hst]
    have h := stopExpiredLoop_cfg c x (s.unused.length + 1) (cancelTimer s) false []
    have hcfg : CfgEq s (stopExpiredLoop c x (s.unused.length + 1)
        (cancelTimer s) false []).pool :=
      CfgEq.trans ⟨rfl, rfl, rfl, rfl, rfl, rfl, rfl, rfl, rfl⟩ h
    by_cases hs : (stopExpiredLoop c x (s.unused.length + 1)
        (cancelTimer s) false []).setTimer = true
    · rw [if_pos hs]
      exact CfgEq.trans hcfg ⟨rfl, rfl, rfl, rfl, rfl, rfl, rfl, rfl, rfl⟩
    · rw [if_neg hs]
      exact hcfg

/-- The sweep only removes entries from the two collections. -/
theorem sweep_sublist (c : Option Nat) (x : Nat → Bool) (s : PoolState) :
    List.Sublist (Locked_StopExpired c x s).pool.unused s.unused ∧
    List.Sublist (Locked_StopExpired c x s).pool.all s.all := by
  rw [Locked_StopExpired_eq]
  by_cases hst : s.stopping = true
  · rw [if_pos hst]
    exact ⟨List.Sublist.refl _, List.Sublist.refl _⟩
  · rw [if_neg hst]
    have h := stopExpiredLoop_sublist c x (s.unused.length + 1) (cancelTimer s) false []
    by_cases hs : (stopExpiredLoop c x (s.unused.length + 1)
        (cancelTimer s) false []).setTimer = true
    · rw [if_pos hs]
      exact h
    · rw [if_neg hs]
      exact h

/-- A busy worker survives the sweep untouched. -/
theorem sweep_busy (c : Option Nat) (x : Nat → Bool) (s : PoolState) (w : Nat)
    (h1 : w ∈ s.all) (h2 : w ∉ s.unused) :
    w ∈ (Locked_StopExpired c x s).pool.all ∧
    w ∉ (Locked_StopExpired c x s).pool.unused := by
  rw [Locked_StopExpired_eq]
  by_cases hst : s.stopping = true
  · rw [if_pos hst]
    exact ⟨h1, h2⟩
  · rw [if_neg hst]
    have h := stopExpiredLoop_busy c x w (s.unused.length + 1)
      (cancelTimer s) false [] h1 h2
    by_cases hs : (stopExpiredLoop c x (s.unused.length + 1)
        (cancelTimer s) false []).setTimer = true
    · rw [if_pos hs]
      exact h
    · rw [if_neg hs]
      exact h

/-- The excluded caller is never stopped by the sweep and keeps its
membership in both collections. -/
theorem sweep_caller (cc : Nat) (x : Nat → Bool) (s : PoolState) :
    cc ∉ (Locked_StopExpired (some cc) x s).stopped ∧
    (cc ∈ (Locked_StopExpired (some cc) x s).pool.unused ↔ cc ∈ s.unused) ∧
    (cc ∈ (Locked_StopExpired (some cc) x s).pool.all ↔ cc ∈ s.all) := by
  rw [Locked_StopExpired_eq]
  by_cases hst : s.stopping = true
  · rw [if_pos hst]
    exact ⟨List.not_mem_nil cc, Iff.rfl, Iff.rfl⟩
  · rw [if_neg hst]
    obtain ⟨ha, hb, hc⟩ := stopExpiredLoop_caller cc x (s.unused.length + 1)
      (cancelTimer s) false []
    by_cases hs : (stopExpiredLoop (some cc) x (s.unused.length + 1)
        (cancelTimer s) false []).setTimer = true
    · rw [if_pos hs]
      exact ⟨ha (List.not_mem_nil cc), hb, hc⟩
    · rw [if_neg hs]
      exact ⟨ha (List.not_mem_nil cc), hb, hc⟩

/-- The sweep preserves the collection invariant. -/
theorem sweep_inv (c : Option Nat) (x : Nat → Bool) (s : PoolState)
    (hInv : Inv s) : Inv (Locked_StopExpired c x s).pool := by
  rw [Locked_StopExpired_eq]
  by_cases hst : s.stopping = true
  · rw [if_pos hst]
    exact hInv
  · rw [if_neg hst]
    have h := stopExpiredLoop_inv c x (s.unused.length + 1) (cancelTimer s) false [] hInv
    by_cases hs : (stopExpiredLoop c x (s.unused.length + 1)
        (cancelTimer s) false []).setTimer = true
    · rw [if_pos hs]
      exact h
    · rw [if_neg hs]
      exact h

/-- When the pool is not stopping and the excluded caller is an
expired idle worker, the sweep re-arms the shared timer with
`4 * MaxIdleTime / 3`. -/
theorem sweep_rearm (cc : Nat) (x : Nat → Bool) (s : PoolState)
    (hst : s.stopping = false) (hmem : cc ∈ s.unused) (hexp : x cc = true) :
    (Locked_StopExpired (some cc) x s).pool.timerArmed =
      some (Int.tdiv (4 * s.maxIdleTime) 3) := by
  rw [Locked_StopExpired_eq]
  rw [if_neg (by rw [hst]; exact Bool.false_ne_true)]
  have hset := stopExpiredLoop_setTimer cc x (s.unused.length + 1)
    (cancelTimer s) false [] (by exact Nat.lt_succ_self _) hmem hexp
  rw [if_pos hset]
  have hcfg := stopExpiredLoop_cfg (some cc) x (s.unused.length + 1)
    (cancelTimer s) false []
  show (SET_TIMER _).timerArmed = _
  rw [SET_TIMER]
  have hidle : (stopExpiredLoop (some cc) x (s.unused.length + 1)
      (cancelTimer s) false []).pool.maxIdleTime = s.maxIdleTime := hcfg.2.2.1
  rw [hidle]

/-- Unfolding of `PopUnused` when `Unused` is empty. -/
theorem PopUnused_nil (isExp : Nat → Bool) (s : PoolState) (hun : s.unused = []) :
    PopUnused isExp s = (s, none, s.all.length) := by
  unfold PopUnused
  rw [hun]

/-- Unfolding of `PopUnused` when `Unused` has a front element. -/
theorem PopUnused_cons (isExp : Nat → Bool) (s : PoolState) (t : Nat)
    (rest : List Nat) (hun : s.unused = t :: rest) :
    PopUnused isExp s =
      ((Locked_StopExpired none isExp
          { s with unused := rest, threadsUnused := rest.length }).pool,
        some t, s.all.length) := by
  unfold PopUnused
  rw [hun]

/-- Unfolding of one `RunLoop` iteration when the pool is stopping:
the `while` condition fails and the loop exits with a null worker. -/
theorem RunLoop_stopping (env : RunEnv) (isExp : Nat → Bool) (fuel k : Nat)
    (s : PoolState) (h : s.stopping = true) :
    RunLoop env isExp (fuel + 1) k s = (s, .exitNoWorker) := by
  rw [RunLoop, if_pos h]

/-- C10: when the stopping flag is set, the eviction sweep cancels the
shared waitable timer and returns at once: no worker is stopped and
`All`, `Unused` and every diagnostic counter are left unchanged. -/
theorem c10_stopping_sweep_frame (caller : Option Nat) (isExp : Nat → Bool)
    (s : PoolState) (h : s.stopping = true) :
    Locked_StopExpired caller isExp s =
      ⟨{ s with timerArmed := none }, [], false⟩ := by
  rw [Locked_StopExpired_eq, if_pos h]
  rfl

/-- Witness for C10 at a concrete stopping pool. -/
theorem c10_stopping_sweep_frame_witness :
    ({ stopping := true, all := [1, 2], unused := [2],
       threadsStopped := 5 } : PoolState).stopping = true ∧
    Locked_StopExpired (some 2) (fun _ => true)
        ({ stopping := true, all := [1, 2], unused := [2],
           threadsStopped := 5 } : PoolState) =
      ⟨{ stopping := true, all := [1, 2], unused := [2],
         threadsStopped := 5, timerArmed := none }, [], false⟩ :=
  ⟨rfl, c10_stopping_sweep_frame (some 2) (fun _ => true) _ rfl⟩

/-- C8: a sweep run with a non-null excluded caller never stops that
caller and never removes it from `All` or `Unused`; when the pool is
not stopping and the caller is idle and expired, the sweep records the
deferred self-stop and re-arms the shared timer after the scan. -/
theorem c8_caller_excluded (s : PoolState) (isExp : Nat → Bool) (cc : Nat) :
    cc ∉ (Locked_StopExpired (some cc) isExp s).stopped ∧
    (cc ∈ (Locked_StopExpired (some cc) isExp s).pool.unused ↔ cc ∈ s.unused) ∧
    (cc ∈ (Locked_StopExpired (some cc) isExp s).pool.all ↔ cc ∈ s.all) ∧
    (s.stopping = false → cc ∈ s.unused → isExp cc = true →
      (Locked_StopExpired (some cc) isExp s).pool.timerArmed =
        some (Int.tdiv (4 * s.maxIdleTime) 3)) :=
  ⟨(sweep_caller cc isExp s).1, (sweep_caller cc isExp s).2.1,
   (sweep_caller cc isExp s).2.2,
   fun h1 h2 h3 => sweep_rearm cc isExp s h1 h2 h3⟩

/-- Witness for C8: a pool holding a single expired idle worker that
is also the caller; it survives and the timer is re-armed to
`4 * 3000 / 3 = 4000`. -/
theorem c8_caller_excluded_witness :
    7 ∉ (Locked_StopExpired (some 7) (fun _ => true)
          ({ all := [7], unused := [7] } : PoolState)).stopped ∧
    7 ∈ (Locked_StopExpired (some 7) (fun _ => true)
          ({ all := [7], unused := [7] } : PoolState)).pool.unused ∧
    (Locked_StopExpired (some 7) (fun _ => true)
          ({ all := [7], unused := [7] } : PoolState)).pool.timerArmed =
      some 4000 := by
  have h := c8_caller_excluded ({ all := [7], unused := [7] } : PoolState)
    (fun _ => true) 7
  exact ⟨h.1, h.2.1.mpr (by decide), by rw [h.2.2.2 rfl (by decide) rfl]; rfl⟩

/-- C1 (code defect): after `Stop()` both collections are empty, but a
subsequent `Run` does not return refusal: the admission loop is
skipped because `Stopping` holds, the local `WorkerPtr t` stays null,
and the source then calls `t->Invoke(cb, id)` — a null-pointer
dereference instead of the specified `nullptr` return. -/
theorem c1_run_after_stop (s : PoolState) (env : RunEnv) (isExp : Nat → Bool)
    (fuel : Nat) :
    (Stop s).state.all = [] ∧ (Stop s).state.unused = [] ∧
    (Stop s).state.stopping = true ∧
    Run env isExp (fuel + 1) (Stop s).state =
      ((Stop s).state, RunResult.nullDeref) := by
  refine ⟨rfl, rfl, rfl, ?_⟩
  rw [Run, RunLoop_stopping env isExp fuel 0 (Stop s).state rfl]

/-- Unfolding of one `RunLoop` iteration in the capacity-reached,
`FAIL`-mode branch. -/
theorem RunLoop_fail (env : RunEnv) (isExp : Nat → Bool) (fuel k : Nat)
    (s : PoolState) (hstop : s.stopping = false) (hun : s.unused = [])
    (hcap : s.maxThreads ≤ s.all.length) (hmode : s.mode = OVERFLOW_MODE.FAIL) :
    RunLoop env isExp (fuel + 1) k s =
      ({ s with errors := s.errors + 1 }, .refuseFail) := by
  rw [RunLoop]
  rw [if_neg (by simp [hstop])]
  rw [PopUnused_nil isExp s hun]
  simp only []
  rw [if_pos hcap, if_pos hmode]

/-- Unfolding of one `RunLoop` iteration in the capacity-reached,
`WAIT`-mode branch: the result is decided by the wait outcome. -/
theorem RunLoop_wait (env : RunEnv) (isExp : Nat → Bool) (fuel k : Nat)
    (s : PoolState) (hstop : s.stopping = false) (hun : s.unused = [])
    (hcap : s.maxThreads ≤ s.all.length) (hmode : s.mode = OVERFLOW_MODE.WAIT) :
    RunLoop env isExp (fuel + 1) k s =
      match env.waitOutcome k with
      | .object0 => (s, .refuseStop)
      | .object1 => RunLoop env isExp fuel (k + 1) s := by
  rw [RunLoop]
  rw [if_neg (by simp [hstop])]
  rw [PopUnused_nil isExp s hun]
  simp only []
  rw [if_pos hcap, if_neg (by simp [hmode])]

/-- Unfolding of one `RunLoop` iteration when an idle worker is at the
front of `Unused`: it is popped (running the opportunistic sweep) and
returned. -/
theorem RunLoop_pop (env : RunEnv) (isExp : Nat → Bool) (fuel k : Nat)
    (s : PoolState) (t : Nat) (rest : List Nat)
    (hstop : s.stopping = false) (hun : s.unused = t :: rest) :
    RunLoop env isExp (fuel + 1) k s =
      ((Locked_StopExpired none isExp
          { s with unused := rest, threadsUnused := rest.length }).pool,
        .gotWorker t) := by
  rw [RunLoop]
  rw [if_neg (by simp [hstop])]
  rw [PopUnused_cons isExp s t rest hun]

/-- Registering a brand-new worker in `All` preserves the invariant. -/
theorem push_all_inv (s : PoolState) (t : Nat) (hInv : Inv s)
    (ht : t ∉ s.all) : Inv (Push .toAll t s) := by
  obtain ⟨hsub, hndAll, hndUn⟩ := hInv
  refine ⟨?_, ?_, hndUn⟩
  · intro a ha
    exact List.mem_append_left _ (hsub ha)
  · refine hndAll.append (List.nodup_singleton t) ?_
    intro a ha hb
    rw [List.mem_singleton.mp hb] at ha
    exact ht ha

/-- Returning a live non-idle worker to `Unused` preserves the
invariant. -/
theorem push_unused_inv (s : PoolState) (t : Nat) (hInv : Inv s)
    (ht : t ∈ s.all) (htu : t ∉ s.unused) : Inv (Push .toUnused t s) := by
  obtain ⟨hsub, hndAll, hndUn⟩ := hInv
  refine ⟨?_, hndAll, ?_⟩
  · intro a ha
    rcases List.mem_append.mp ha with h | h
    · exact hsub h
    · rw [List.mem_singleton.mp h]
      exact ht
  · refine hndUn.append (List.nodup_singleton t) ?_
    intro a ha hb
    rw [List.mem_singleton.mp hb] at ha
    exact htu ha

/-- The admission loop preserves the invariant, and any worker it
hands out is live and not idle in the resulting state. -/
theorem RunLoop_inv (env : RunEnv) (isExp : Nat → Bool) :
    ∀ (fuel k : Nat) (s : PoolState), Inv s → env.freshId ∉ s.all →
      Inv (RunLoop env isExp fuel k s).1 ∧
      (∀ t, (RunLoop env isExp fuel k s).2 = .gotWorker t →
        t ∈ (RunLoop env isExp fuel k s).1.all ∧
        t ∉ (RunLoop env isExp fuel k s).1.unused) := by
  intro fuel
  induction fuel with
  | zero =>
    intro k s hInv hfresh
    exact ⟨hInv, fun t ht => by cases ht⟩
  | succ f ih =>
    intro k s hInv hfresh
    cases hstop : s.stopping with
    | true =>
      rw [RunLoop_stopping env isExp f k s hstop]
      exact ⟨hInv, fun t ht => by cases ht⟩
    | false =>
      cases hun : s.unused with
      | cons t rest =>
        rw [RunLoop_pop env isExp f k s t rest hstop hun]
        have hsub : t :: rest ⊆ s.all := hun ▸ hInv.1
        have hndUn : (t :: rest).Nodup := hun ▸ hInv.2.2
        have hInv1 : Inv { s with unused := rest, threadsUnused := rest.length } :=
          ⟨fun a ha => hsub (List.mem_cons_of_mem _ ha), hInv.2.1,
            (List.nodup_cons.mp hndUn).2⟩
        have hbusy := sweep_busy none isExp
          { s with unused := rest, threadsUnused := rest.length } t
          (hsub (List.mem_cons_self t rest)) (List.nodup_cons.mp hndUn).1
        refine ⟨sweep_inv none isExp _ hInv1, ?_⟩
        intro u hu
        cases hu
        exact hbusy
      | nil =>
        rw [RunLoop]
        rw [if_neg (by simp [hstop])]
        rw [PopUnused_nil isExp s hun]
        simp only []
        by_cases hcap : s.all.length ≥ s.maxThreads
        · rw [if_pos hcap]
          by_cases hmode : s.mode = OVERFLOW_MODE.FAIL
          · rw [if_pos hmode]
            exact ⟨hInv, fun t ht => by cases ht⟩
          · rw [if_neg hmode]
            cases hw : env.waitOutcome k with
            | object0 =>
              exact ⟨hInv, fun t ht => by cases ht⟩
            | object1 =>
              exact ih (k + 1) s hInv hfresh
        · rw [if_neg hcap]
          by_cases hso : env.startOk = true
          · rw [if_pos hso]
            refine ⟨push_all_inv s env.freshId hInv hfresh, ?_⟩
            intro u hu
            cases hu
            constructor
            · show env.freshId ∈ s.all ++ [env.freshId]
              exact List.mem_append_right _ (List.mem_singleton_self _)
            · show env.freshId ∉ s.unused
              rw [hun]
              exact List.not_mem_nil _
          · rw [if_neg hso]
            exact ⟨hInv, fun t ht => by cases ht⟩

/-- Lemma: `Run` preserves the invariant (the created worker, if any, is a
fresh identity). -/
theorem Run_inv (env : RunEnv) (isExp : Nat → Bool) (fuel : Nat)
    (s : PoolState) (hInv : Inv s) (hfresh : env.freshId ∉ s.all) :
    Inv (Run env isExp fuel s).1 := by
  have h12 := RunLoop_inv env isExp fuel 0 s hInv hfresh
  rw [Run]
  cases hr : (RunLoop env isExp fuel 0 s).2 with
  | refuseFail => simp only [hr]; exact h12.1
  | refuseStop => simp only [hr]; exact h12.1
  | refuseStartFail => simp only [hr]; exact h12.1
  | fuelOut => simp only [hr]; exact h12.1
  | exitNoWorker => simp only [hr]; exact h12.1
  | gotWorker t =>
    simp only [hr]
    obtain ⟨ha, hb⟩ := h12.2 t hr
    by_cases hi : env.invokeOk t = true
    · rw [if_pos hi]
      exact h12.1
    · rw [if_neg hi]
      exact push_unused_inv _ t h12.1 ha hb

/-- C2: at capacity with no idle worker and overflow mode `Fail`,
`Run` increments the error counter and refuses at once: the final
state differs from the initial one only in the error counter (in
particular `All` and `Unused` are untouched and no worker is
created), and no wait is performed. -/
theorem c2_fail_mode_refusal (env : RunEnv) (isExp : Nat → Bool) (fuel : Nat)
    (s : PoolState) (hstop : s.stopping = false) (hun : s.unused = [])
    (hcap : s.maxThreads ≤ s.all.length)
    (hmode : s.mode = OVERFLOW_MODE.FAIL) :
    Run env isExp (fuel + 1) s = ({ s with errors := s.errors + 1 }, .refusal) := by
  rw [Run, RunLoop_fail env isExp fuel 0 s hstop hun hcap hmode]

/-- Witness for C2: a full pool (one worker, `MaxThreads = 1`) in
`FAIL` mode refuses and only bumps the error counter. -/
theorem c2_fail_mode_refusal_witness :
    Run ⟨true, fun _ => true, fun _ => .object1, 99⟩ (fun _ => false) 1
        ({ maxThreads := 1, mode := .FAIL, all := [4], threadsTotal := 1 } : PoolState) =
      (({ maxThreads := 1, mode := .FAIL, all := [4], threadsTotal := 1,
          errors := 1 } : PoolState), .refusal) :=
  c2_fail_mode_refusal ⟨true, fun _ => true, fun _ => .object1, 99⟩
    (fun _ => false) 0 _ rfl rfl (by decide) rfl

/-- C3: at capacity with no idle worker and overflow mode `Wait`, the
admission loop waits on {stop signal, free signal}; if the stop signal
fired `Run` returns refusal with the state unchanged, and if the free
signal fired the loop retries admission from the top (popping `Unused`
again) with the state unchanged. -/
theorem c3_wait_mode (env : RunEnv) (isExp : Nat → Bool) (fuel k : Nat)
    (s : PoolState) (hstop : s.stopping = false) (hun : s.unused = [])
    (hcap : s.maxThreads ≤ s.all.length)
    (hmode : s.mode = OVERFLOW_MODE.WAIT) :
    (env.waitOutcome k = .object0 →
      RunLoop env isExp (fuel + 1) k s = (s, .refuseStop)) ∧
    (env.waitOutcome 0 = .object0 →
      Run env isExp (fuel + 1) s = (s, .refusal)) ∧
    (env.waitOutcome k = .object1 →
      RunLoop env isExp (fuel + 1) k s = RunLoop env isExp fuel (k + 1) s) := by
  refine ⟨?_, ?_, ?_⟩
  · intro hw
    rw [RunLoop_wait env isExp fuel k s hstop hun hcap hmode, hw]
  · intro hw
    rw [Run, RunLoop_wait env isExp fuel 0 s hstop hun hcap hmode, hw]
  · intro hw
    rw [RunLoop_wait env isExp fuel k s hstop hun hcap hmode, hw]

/-- Witness for C3 at a concrete full pool in `WAIT` mode, under a
wait oracle whose first call reports the stop signal. -/
theorem c3_wait_mode_witness :
    Run ⟨true, fun _ => true, fun _ => .object0, 99⟩ (fun _ => false) 1
        ({ maxThreads := 1, all := [4], threadsTotal := 1 } : PoolState) =
      (({ maxThreads := 1, all := [4], threadsTotal := 1 } : PoolState), .refusal) :=
  (c3_wait_mode ⟨true, fun _ => true, fun _ => .object0, 99⟩
    (fun _ => false) 0 0 _ rfl rfl (by decide) rfl).2.1 rfl

/-- C4: whenever the admission loop hands out a worker (either popped
from `Unused` or freshly created) and `Invoke` fails, `Run` pushes
that same worker onto the back of `Unused`, it stays a member of
`All`, the error counter is incremented and the result is refusal. -/
theorem c4_invoke_failure_salvage (env : RunEnv) (isExp : Nat → Bool)
    (fuel : Nat) (s : PoolState) (hInv : Inv s)
    (hfresh : env.freshId ∉ s.all) (t : Nat)
    (hgot : (RunLoop env isExp fuel 0 s).2 = .gotWorker t)
    (hinv : env.invokeOk t = false) :
    (Run env isExp fuel s).2 = .refusal ∧
    (Run env isExp fuel s).1.unused.getLast? = some t ∧
    t ∈ (Run env isExp fuel s).1.unused ∧
    t ∈ (Run env isExp fuel s).1.all ∧
    (Run env isExp fuel s).1.errors = (RunLoop env isExp fuel 0 s).1.errors + 1 := by
  obtain ⟨ha, hb⟩ := (RunLoop_inv env isExp fuel 0 s hInv hfresh).2 t hgot
  rw [Run]
  simp only [hgot]
  rw [if_neg (by rw [hinv]; exact Bool.false_ne_true)]
  refine ⟨rfl, ?_, ?_, ?_, rfl⟩
  · show ((RunLoop env isExp fuel 0 s).1.unused ++ [t]).getLast? = some t
    exact List.getLast?_concat _
  · show t ∈ (RunLoop env isExp fuel 0 s).1.unused ++ [t]
    exact List.mem_append_right _ (List.mem_singleton_self _)
  · show t ∈ (RunLoop env isExp fuel 0 s).1.all
    exact ha

/-- Witness for C4: a pool with one idle worker whose `Invoke` fails;
the worker is salvaged and the error counter is bumped. -/
theorem c4_invoke_failure_salvage_witness :
    (Run ⟨true, fun _ => false, fun _ => .object1, 99⟩ (fun _ => false) 1
        ({ all := [4], unused := [4], threadsTotal := 1, threadsUnused := 1 } : PoolState)).2 = .refusal ∧
    4 ∈ (Run ⟨true, fun _ => false, fun _ => .object1, 99⟩ (fun _ => false) 1
        ({ all := [4], unused := [4], threadsTotal := 1, threadsUnused := 1 } : PoolState)).1.unused ∧
    4 ∈ (Run ⟨true, fun _ => false, fun _ => .object1, 99⟩ (fun _ => false) 1
        ({ all := [4], unused := [4], threadsTotal := 1, threadsUnused := 1 } : PoolState)).1.all := by
  have h := c4_invoke_failure_salvage ⟨true, fun _ => false, fun _ => .object1, 99⟩
    (fun _ => false) 1
    ({ all := [4], unused := [4], threadsTotal := 1, threadsUnused := 1 } : PoolState)
    (by decide) (by decide) 4 (by decide) rfl
  exact ⟨h.1, h.2.2.1, h.2.2.2.1⟩

/-- Unfolding of `CB_OnFree` in the over-capacity branch. -/
theorem CB_OnFree_over (p : Nat) (s : PoolState)
    (h : s.maxUnusedThreads < s.unused.length + 1) :
    CB_OnFree p s =
      ({ s with timerArmed := some (Int.tdiv (4 * s.maxIdleTime) 3),
                unused := s.unused ++ [p], freeEvent := true },
       ⟨some s.maxIdleTime, some (Int.tdiv (4 * s.maxIdleTime) 3), 1⟩) := by
  rw [CB_OnFree, if_pos h]

/-- Unfolding of `CB_OnFree` in the under-capacity branch. -/
theorem CB_OnFree_under (p : Nat) (s : PoolState)
    (h : ¬s.maxUnusedThreads < s.unused.length + 1) :
    CB_OnFree p s =
      ({ s with unused := s.unused ++ [p], freeEvent := true },
       ⟨none, none, 1⟩) := by
  rw [CB_OnFree, if_neg h]

/-- C6 (amended): the worker-idle callback arms the expiry deadline
with `MaxIdleTime` and re-arms the shared timer exactly when
`|Unused| + 1 > MaxUnusedThreads`; in all cases it pushes the worker
onto the back of `Unused` and raises the free signal exactly once —
but it does NOT refresh the idle-count diagnostic, which keeps its
previous value. -/
theorem c6_on_free_behaviour (p : Nat) (s : PoolState) :
    (s.maxUnusedThreads < s.unused.length + 1 →
      (CB_OnFree p s).2.expireSet = some s.maxIdleTime ∧
      (CB_OnFree p s).2.timerArm = some (Int.tdiv (4 * s.maxIdleTime) 3) ∧
      (CB_OnFree p s).1.timerArmed = some (Int.tdiv (4 * s.maxIdleTime) 3)) ∧
    (¬s.maxUnusedThreads < s.unused.length + 1 →
      (CB_OnFree p s).2.expireSet = none ∧
      (CB_OnFree p s).2.timerArm = none ∧
      (CB_OnFree p s).1.timerArmed = s.timerArmed) ∧
    (CB_OnFree p s).1.unused = s.unused ++ [p] ∧
    (CB_OnFree p s).2.freeRaised = 1 ∧
    (CB_OnFree p s).1.freeEvent = true ∧
    (CB_OnFree p s).1.threadsUnused = s.threadsUnused := by
  by_cases h : s.maxUnusedThreads < s.unused.length + 1
  · rw [CB_OnFree_over p s h]
    exact ⟨fun _ => ⟨rfl, rfl, rfl⟩, fun hc => absurd h hc, rfl, rfl, rfl, rfl⟩
  · rw [CB_OnFree_under p s h]
    exact ⟨fun hc => absurd hc h, fun _ => ⟨rfl, rfl, rfl⟩, rfl, rfl, rfl, rfl⟩

/-- Witness for C6 at a concrete over-capacity pool. -/
theorem c6_on_free_behaviour_witness :
    (CB_OnFree 5 ({ maxUnusedThreads := 0, all := [5], threadsTotal := 1 } : PoolState)).2.expireSet = some 3000 ∧
    (CB_OnFree 5 ({ maxUnusedThreads := 0, all := [5], threadsTotal := 1 } : PoolState)).1.unused = [5] ∧
    (CB_OnFree 5 ({ maxUnusedThreads := 0, all := [5], threadsTotal := 1 } : PoolState)).2.freeRaised = 1 ∧
    (CB_OnFree 5 ({ maxUnusedThreads := 0, all := [5], threadsTotal := 1 } : PoolState)).1.threadsUnused = 0 := by
  have h := c6_on_free_behaviour 5
    ({ maxUnusedThreads := 0, all := [5], threadsTotal := 1 } : PoolState)
  exact ⟨(h.1 (by decide)).1, h.2.2.1, h.2.2.2.1, h.2.2.2.2.2⟩

/-- Counterexample for C6 as stated: after the idle callback the
idle-count diagnostic does not equal the new size of `Unused` — the
source never refreshes `ThreadsUnused` in `CB_OnFree`. -/
theorem c6_counterexample :
    (CB_OnFree 5 ({ maxUnusedThreads := 0 } : PoolState)).1.unused.length = 1 ∧
    (CB_OnFree 5 ({ maxUnusedThreads := 0 } : PoolState)).1.threadsUnused = 0 ∧
    ¬(CB_OnFree 5 ({ maxUnusedThreads := 0 } : PoolState)).1.threadsUnused =
      (CB_OnFree 5 ({ maxUnusedThreads := 0 } : PoolState)).1.unused.length := by
  refine ⟨rfl, rfl, ?_⟩
  rw [CB_OnFree_over 5 _ (by decide)]
  decide

/-- Arithmetic fact: `4 * t / 3 > t` holds in truncating integer division from
`t = 3` upward. -/
theorem tdiv_four_thirds_gt (t : Int) (h : 3 ≤ t) :
    t < Int.tdiv (4 * t) 3 := by
  have h0 : 0 ≤ t := by omega
  obtain ⟨n, rfl⟩ : ∃ n : Nat, t = (n : Int) := ⟨t.toNat, (Int.toNat_of_nonneg h0).symm⟩
  have hn : 3 ≤ n := by exact_mod_cast h
  have hcast : (4 * (n : Int)) = ((4 * n : Nat) : Int) := by push_cast; ring
  rw [hcast]
  have hdiv : Int.tdiv ((4 * n : Nat) : Int) ((3 : Nat) : Int) = ((4 * n / 3 : Nat) : Int) := rfl
  have h3 : ((3 : Nat) : Int) = (3 : Int) := rfl
  rw [← h3, hdiv]
  have : n < 4 * n / 3 := by omega
  exact_mod_cast this

/-- C7 (amended): whenever the idle callback gives a worker an expiry
deadline, the deadline equals `MaxIdleTime` and the shared timer is
armed with `4 * MaxIdleTime / 3` in truncating integer division; that
armed period is strictly longer than the deadline whenever
`MaxIdleTime ≥ 3`, but not for `MaxIdleTime ∈ {0, 1, 2}`. -/
theorem c7_deadline_and_timer (s : PoolState) (p : Nat)
    (h : s.maxUnusedThreads < s.unused.length + 1) :
    (CB_OnFree p s).2.expireSet = some s.maxIdleTime ∧
    (CB_OnFree p s).2.timerArm = some (Int.tdiv (4 * s.maxIdleTime) 3) ∧
    (3 ≤ s.maxIdleTime → s.maxIdleTime < Int.tdiv (4 * s.maxIdleTime) 3) := by
  rw [CB_OnFree_over p s h]
  exact ⟨rfl, rfl, fun h3 => tdiv_four_thirds_gt s.maxIdleTime h3⟩

/-- Witness for C7 at the default configuration
(`MaxIdleTime = 3000`, armed period `4000 > 3000`). -/
theorem c7_deadline_and_timer_witness :
    (CB_OnFree 5 ({ maxUnusedThreads := 0 } : PoolState)).2.expireSet = some 3000 ∧
    (CB_OnFree 5 ({ maxUnusedThreads := 0 } : PoolState)).2.timerArm = some 4000 ∧
    (3000 : Int) < 4000 := by
  have h := c7_deadline_and_timer ({ maxUnusedThreads := 0 } : PoolState) 5 (by decide)
  refine ⟨h.1, ?_, by decide⟩
  rw [h.2.1]
  rfl

/-- Counterexample for C7 as stated: with `MaxIdleTime = 2` the timer
is armed with `4 * 2 / 3 = 2`, which is not strictly longer than the
deadline `2` — truncating division defeats the 4/3 margin below 3. -/
theorem c7_counterexample :
    (CB_OnFree 1 ({ maxUnusedThreads := 0, maxIdleTime := 2 } : PoolState)).2.expireSet = some 2 ∧
    (CB_OnFree 1 ({ maxUnusedThreads := 0, maxIdleTime := 2 } : PoolState)).2.timerArm = some 2 ∧
    ¬((2 : Int) < 2) := by
  rw [CB_OnFree_over 1 _ (by decide)]
  refine ⟨rfl, by decide, by decide⟩

/-- C9: under the precondition that no worker is busy when `Stop()` is
called (every member of `All` is idle) and the collection invariant,
the `assert(All.size() == Unused.size())` evaluated just before
clearing holds; afterwards both collections are empty and the total
and unused counters are zero, and the stopped counter grew by one per
worker. -/
theorem c9_stop_assert (s : PoolState)
    (hidle : ∀ w ∈ s.all, w ∈ s.unused) (hInv : Inv s) :
    (Stop s).assertOk = true ∧
    (Stop s).state.all = [] ∧
    (Stop s).state.unused = [] ∧
    (Stop s).state.threadsTotal = 0 ∧
    (Stop s).state.threadsUnused = 0 ∧
    (Stop s).state.threadsStopped = s.threadsStopped + s.all.length := by
  obtain ⟨hsub, hndAll, hndUn⟩ := hInv
  have h1 : s.all.length ≤ s.unused.length :=
    (List.subperm_of_subset hndAll hidle).length_le
  have h2 : s.unused.length ≤ s.all.length :=
    (List.subperm_of_subset hndUn hsub).length_le
  have hlen : s.all.length = s.unused.length := Nat.le_antisymm h1 h2
  refine ⟨?_, rfl, rfl, rfl, rfl, rfl⟩
  show (s.all.length == s.unused.length) = true
  rw [hlen]
  exact beq_self_eq_true _

/-- Witness for C9: a pool whose two workers are both idle. -/
theorem c9_stop_assert_witness :
    (Stop ({ all := [3, 4], unused := [4, 3], threadsTotal := 2, threadsUnused := 2 } : PoolState)).assertOk = true ∧
    (Stop ({ all := [3, 4], unused := [4, 3], threadsTotal := 2, threadsUnused := 2 } : PoolState)).state.all = [] ∧
    (Stop ({ all := [3, 4], unused := [4, 3], threadsTotal := 2, threadsUnused := 2 } : PoolState)).state.threadsStopped = 2 := by
  have h := c9_stop_assert
    ({ all := [3, 4], unused := [4, 3], threadsTotal := 2, threadsUnused := 2 } : PoolState)
    (by decide) (by decide)
  exact ⟨h.1, h.2.1, h.2.2.2.2.2⟩

/-- C5: `Unused ⊆ All` and no duplicate entries in either collection,
preserved by every pool operation: `PopUnused`, both uses of `Push`
(a fresh worker into `All`; a live non-idle worker back into
`Unused`), the idle callback (whose debug assertion demands the worker
be in `All` and not in `Unused`), the eviction sweep, the timer
callback, `Stop`, `StopUnused`, and `Run` end to end. -/
theorem c5_collections_invariant (s : PoolState) (isExp : Nat → Bool)
    (hInv : Inv s) (t p cc : Nat) (env : RunEnv) (fuel : Nat) :
    Inv (PopUnused isExp s).1 ∧
    (t ∉ s.all → Inv (Push .toAll t s)) ∧
    (t ∈ s.all → t ∉ s.unused → Inv (Push .toUnused t s)) ∧
    (p ∈ s.all → p ∉ s.unused → Inv (CB_OnFree p s).1) ∧
    (∀ caller : Option Nat, Inv (Locked_StopExpired caller isExp s).pool) ∧
    (∀ b : Bool, Inv (CB_OnTimer cc b isExp s).pool) ∧
    Inv (Stop s).state ∧
    Inv (StopUnused isExp s).pool ∧
    (env.freshId ∉ s.all → Inv (Run env isExp fuel s).1) := by
  refine ⟨?_, ?_, ?_, ?_, ?_, ?_, ?_, ?_, ?_⟩
  · cases hun : s.unused with
    | nil =>
      rw [PopUnused_nil isExp s hun]
      exact hInv
    | cons u rest =>
      rw [PopUnused_cons isExp s u rest hun]
      have hsub : u :: rest ⊆ s.all := hun ▸ hInv.1
      have hndUn : (u :: rest).Nodup := hun ▸ hInv.2.2
      exact sweep_inv none isExp _
        ⟨fun a ha => hsub (List.mem_cons_of_mem _ ha), hInv.2.1,
          (List.nodup_cons.mp hndUn).2⟩
  · intro ht
    exact push_all_inv s t hInv ht
  · intro ht htu
    exact push_unused_inv s t hInv ht htu
  · intro hp hpu
    by_cases hc : s.maxUnusedThreads < s.unused.length + 1
    · rw [CB_OnFree_over p s hc]
      exact push_unused_inv s p hInv hp hpu
    · rw [CB_OnFree_under p s hc]
      exact push_unused_inv s p hInv hp hpu
  · intro caller
    exact sweep_inv caller isExp s hInv
  · intro b
    cases b with
    | false => exact hInv
    | true =>
      exact sweep_inv (some cc) isExp
        { s with onTimerCalls := s.onTimerCalls + 1 } hInv
  · exact ⟨fun a ha => absurd ha (List.not_mem_nil a),
      List.nodup_nil, List.nodup_nil⟩
  · exact sweep_inv none (fun e => s.unused.contains e || isExp e) s hInv
  · intro hfresh
    exact Run_inv env isExp fuel s hInv hfresh

/-- Witness for C5: a concrete pool with two workers, one idle. -/
theorem c5_collections_invariant_witness :
    Inv ({ all := [1, 2], unused := [2], threadsTotal := 2, threadsUnused := 1 } : PoolState) ∧
    Inv (PopUnused (fun _ => false)
      ({ all := [1, 2], unused := [2], threadsTotal := 2, threadsUnused := 1 } : PoolState)).1 ∧
    Inv (Stop ({ all := [1, 2], unused := [2], threadsTotal := 2, threadsUnused := 1 } : PoolState)).state ∧
    Inv (Run ⟨true, fun _ => true, fun _ => .object1, 9⟩ (fun _ => false) 1
      ({ all := [1, 2], unused := [2], threadsTotal := 2, threadsUnused := 1 } : PoolState)).1 := by
  have h := c5_collections_invariant
    ({ all := [1, 2], unused := [2], threadsTotal := 2, threadsUnused := 1 } : PoolState)
    (fun _ => false) (by decide) 3 2 1 ⟨true, fun _ => true, fun _ => .object1, 9⟩ 1
  exact ⟨by decide, h.1, h.2.2.2.2.2.2.1, h.2.2.2.2.2.2.2.2 (by decide)⟩

end SyncmePool
